import Mathlib

/-!
Verification development for the transcript streamlining engine
(`scripts/streamline.py`).  The engine is embedded shallowly: JSON values
become an inductive type, Python dicts become association lists in key
order, and each Python function becomes a Lean function of the same name.
Theorems about the embedded engine follow the definitions.
-/

namespace Streamline

/-- JSON-like values, the universe of data the engine manipulates.
Objects are association lists in insertion order with unique keys,
matching Python dicts produced by `json.loads`; numbers are modelled as
integers (no engine behaviour depends on numeric values). -/
inductive JVal where
  | str (s : String)
  | num (n : Int)
  | bool (b : Bool)
  | null
  | arr (xs : List JVal)
  | obj (fields : List (String × JVal))

/-- A JSON object: keys with values, in insertion order. -/
abbrev JObj := List (String × JVal)

/-- Python `d.get(k)`: the value at key `k`, if present. -/
def jget (o : JObj) (k : String) : Option JVal :=
  (o.find? (fun p => p.1 == k)).map (fun p => p.2)

/-- Python `d.get(k, default)`. -/
def jgetD (o : JObj) (k : String) (d : JVal) : JVal :=
  (jget o k).getD d

/-- Python `d.get(k, default)` in contexts where the code goes on to apply
string operations to the value.  A present non-string value would raise
`TypeError` in Python on those paths; the model returns the default there. -/
def jgetStr (o : JObj) (k : String) (d : String) : String :=
  match jget o k with
  | some (.str s) => s
  | _ => d

/-- Python `v == "lit"` on an optional value: true exactly when the value
is present and is the string `s` (equality with a string literal). -/
def jIs (v : Option JVal) (s : String) : Bool :=
  match v with
  | some (.str t) => t == s
  | _ => false

/-- Python truthiness of a JSON value. -/
def pyTruthy : JVal → Bool
  | .str s => !(s == "")
  | .num n => !(n == 0)
  | .bool b => b
  | .null => false
  | .arr xs => !xs.isEmpty
  | .obj fs => !fs.isEmpty

/-- Python dict assignment `d[k] = v`: replaces the value in place when the
key is present, appends otherwise. -/
def jset (o : JObj) (k : String) (v : JVal) : JObj :=
  if o.any (fun p => p.1 == k) then
    o.map (fun p => if p.1 == k then (k, v) else p)
  else o ++ [(k, v)]

mutual
/-- Structural equality of JSON values, modelling Python `==` on the
values the engine stores (registry keys). -/
def jvalBEq : JVal → JVal → Bool
  | .str a, .str b => a == b
  | .num a, .num b => a == b
  | .bool a, .bool b => a == b
  | .null, .null => true
  | .arr a, .arr b => jvalListBEq a b
  | .obj a, .obj b => jvalObjBEq a b
  | _, _ => false

/-- Elementwise `jvalBEq` on lists. -/
def jvalListBEq : List JVal → List JVal → Bool
  | [], [] => true
  | x :: xs, y :: ys => jvalBEq x y && jvalListBEq xs ys
  | _, _ => false

/-- Elementwise `jvalBEq` on object fields. -/
def jvalObjBEq : List (String × JVal) → List (String × JVal) → Bool
  | [], [] => true
  | (k1, v1) :: xs, (k2, v2) :: ys => k1 == k2 && jvalBEq v1 v2 && jvalObjBEq xs ys
  | _, _ => false
end

/-- The tool-use registry `tool_uses`: invocation id (any JSON value,
`item.get("id", "")`) mapped to the simplified record. -/
abbrev Registry := List (JVal × JObj)

/-- Python dict assignment on the registry, `tool_uses[key] = value`. -/
def regSet (reg : Registry) (k : JVal) (v : JObj) : Registry :=
  if reg.any (fun p => jvalBEq p.1 k) then
    reg.map (fun p => if jvalBEq p.1 k then (k, v) else p)
  else reg ++ [(k, v)]

/-- One hexadecimal digit. -/
def hexDigit (n : Nat) : Char :=
  if n < 10 then Char.ofNat (48 + n) else Char.ofNat (87 + (n % 16))

/-- Four lowercase hexadecimal digits, as in a JSON `\uXXXX` escape. -/
def hex4 (n : Nat) : String :=
  List.asString [hexDigit (n / 4096 % 16), hexDigit (n / 256 % 16),
    hexDigit (n / 16 % 16), hexDigit (n % 16)]

/-- JSON escaping of one character as `json.dumps` performs it
(`ensure_ascii` default on; characters beyond the Basic Multilingual
Plane would use surrogate pairs, approximated here by one escape). -/
def jsonEscapeChar (c : Char) : String :=
  if c = Char.ofNat 34 then "\\\""
  else if c = Char.ofNat 92 then "\\\\"
  else if c = Char.ofNat 10 then "\\n"
  else if c = Char.ofNat 9 then "\\t"
  else if c = Char.ofNat 13 then "\\r"
  else if c.toNat < 32 ∨ 126 < c.toNat then "\\u" ++ hex4 c.toNat
  else String.singleton c

/-- JSON escaping of a string. -/
def jsonEscape (s : String) : String :=
  String.join (s.data.map jsonEscapeChar)

mutual
/-- `json.dumps(v, separators=(",", ":"))`: compact JSON serialization. -/
def dumps : JVal → String
  | .str s => "\"" ++ jsonEscape s ++ "\""
  | .num n => toString n
  | .bool b => cond b "true" "false"
  | .null => "null"
  | .arr xs => "[" ++ String.intercalate "," (dumpsList xs) ++ "]"
  | .obj fs => "\x7b" ++ String.intercalate "," (dumpsObj fs) ++ "\x7d"

/-- Serializations of the elements of an array. -/
def dumpsList : List JVal → List String
  | [] => []
  | x :: xs => dumps x :: dumpsList xs

/-- Serializations of the fields of an object. -/
def dumpsObj : List (String × JVal) → List String
  | [] => []
  | (k, v) :: fs => ("\"" ++ jsonEscape k ++ "\":" ++ dumps v) :: dumpsObj fs
end

mutual
/-- Python `repr` of a JSON value (string quoting simplified: quotes are
`\x27` and inner escaping is omitted, which no engine behaviour observes). -/
def pyRepr : JVal → String
  | .str s => "\x27" ++ s ++ "\x27"
  | .num n => toString n
  | .bool b => cond b "True" "False"
  | .null => "None"
  | .arr xs => "[" ++ String.intercalate ", " (pyReprList xs) ++ "]"
  | .obj fs => "\x7b" ++ String.intercalate ", " (pyReprObj fs) ++ "\x7d"

/-- `repr` of the elements of a list. -/
def pyReprList : List JVal → List String
  | [] => []
  | x :: xs => pyRepr x :: pyReprList xs

/-- `repr` of the fields of a dict. -/
def pyReprObj : List (String × JVal) → List String
  | [] => []
  | (k, v) :: fs => ("\x27" ++ k ++ "\x27: " ++ pyRepr v) :: pyReprObj fs
end

/-- Python `str(v)` on a JSON value: the string itself for strings,
`repr`-style rendering for everything else. -/
def pyStr (v : JVal) : String :=
  match v with
  | .str s => s
  | _ => pyRepr v

/-- The text a single content block appends to `text_parts` in
`extract_user_text` (lines 29-32 of `streamline.py`): a bare string
yields itself, a dict whose `type` equals `"text"` yields its `text`
field (default empty), anything else contributes nothing. -/
def textOf : JVal → Option String
  | .str s => some s
  | .obj o => if jIs (jget o "type") "text" then some (jgetStr o "text" "") else none
  | _ => none

/-- `extract_user_text(content)` (lines 25-35): collect the text of bare
strings and `text` blocks in order, join with no separator, strip; return
the result if non-empty. -/
def extract_user_text (content : List JVal) : Option String :=
  let text_parts := content.foldl (fun acc item => acc ++ (textOf item).toList) []
  let text := (String.join text_parts).trim
  if text == "" then none else some text

/-- Local `name` of `simplify_tool_use` (line 40):
`tool_use.get("name", "unknown")`.  The value is only ever compared with
string literals and tested with `startswith`. -/
def tu_name (tool_use : JObj) : String :=
  jgetStr tool_use "name" "unknown"

/-- Local `inp` of `simplify_tool_use` (line 41):
`tool_use.get("input", {})` (a present non-dict value would raise on
every later use; modelled as the empty dict). -/
def tu_input (tool_use : JObj) : JObj :=
  match jget tool_use "input" with
  | some (.obj o) => o
  | _ => []

/-- Local `tool_id` of `simplify_tool_use` (line 42):
`tool_use.get("id", "")`. -/
def tu_id (tool_use : JObj) : JVal :=
  jgetD tool_use "id" (.str "")

/-- One `TodoWrite` item text: `t.get("content", "")` (line 68). -/
def todoText : JVal → String
  | .obj o => jgetStr o "content" ""
  | _ => ""

/-- Python `name.startswith("mcp__")` (line 69): a code-point prefix
test. -/
def isMcpName (name : String) : Bool :=
  "mcp__".data.isPrefixOf name.data

/-- `simplify_tool_use(tool_use)` (lines 38-79): keep tool name and
invocation id, plus key parameters chosen by tool name.  Each dict entry
assignment on a fresh key is an append; the fallback branch may assign
the existing key `id` and is modelled with `jset`. -/
def simplify_tool_use (tool_use : JObj) : JObj :=
  let name := tu_name tool_use
  let inp := tu_input tool_use
  let tool_id := tu_id tool_use
  let result : JObj := [("tool", .str name), ("id", tool_id)]
  if name == "Read" then
    result ++ [("target", jgetD inp "file_path" (.str ""))]
  else if name == "Edit" then
    result ++ [("target", jgetD inp "file_path" (.str ""))]
  else if name == "Write" then
    result ++ [("target", jgetD inp "file_path" (.str ""))]
  else if name == "Bash" then
    let cmd := jgetStr inp "command" ""
    result ++ [("cmd", .str (if 200 < cmd.length then (cmd.take 200) ++ "..." else cmd))]
  else if name == "Grep" then
    let base := result ++ [("pattern", .str ((jgetStr inp "pattern" "").take 100))]
    match jget inp "path" with
    | some v => if pyTruthy v then base ++ [("path", v)] else base
    | none => base
  else if name == "Glob" then
    result ++ [("pattern", jgetD inp "pattern" (.str ""))]
  else if name == "Task" then
    result ++ [("desc", jgetD inp "description" (.str "")),
      ("agent", jgetD inp "subagent_type" (.str ""))]
  else if name == "TodoWrite" then
    let todos := match jget inp "todos" with
      | some (.arr xs) => xs
      | some _ => []
      | none => []
    result ++ [("todos", .arr ((todos.take 5).map (fun t => .str ((todoText t).take 50))))]
  else if isMcpName name then
    result ++ [("params", .obj ((inp.take 3).map (fun p => (p.1, .str ((pyStr p.2).take 100)))))]
  else
    match ["file_path", "path", "query", "url", "id"].find? (fun k => (jget inp k).isSome) with
    | some k => jset result k (.str ((pyStr ((jget inp k).getD .null)).take 200))
    | none => result

/-- Local `is_error` of `process_tool_result` (line 85) as used in
boolean context: the truthiness of `tool_result.get("is_error", False)`. -/
def tr_is_error (tool_result : JObj) : Bool :=
  pyTruthy (jgetD tool_result "is_error" (.bool false))

/-- Local `content` of `process_tool_result` (line 91):
`tool_result.get("content", "")`. -/
def tr_content (tool_result : JObj) : JVal :=
  jgetD tool_result "content" (.str "")

/-- `process_tool_result(tool_result, tool_uses)` (lines 82-101): keep the
invocation id and a success flag; on error, extract a truncated error
message from the content payload when one is available.  The `tool_uses`
parameter is accepted and never used, as in the source. -/
def process_tool_result (tool_result : JObj) (tool_uses : Registry) : JObj :=
  let tool_id := jgetD tool_result "tool_use_id" (.str "")
  let is_error := tr_is_error tool_result
  let result : JObj := [("id", tool_id), ("ok", .bool (!is_error))]
  if is_error then
    match tr_content tool_result with
    | .str s => result ++ [("error", .str (s.take 200))]
    | .arr (first :: _) =>
      match first with
      | .obj o => result ++ [("error", .str ((jgetStr o "text" "").take 200))]
      | .str s => result ++ [("error", .str (s.take 200))]
      | _ => result
    | _ => result
  else result

/-- The record a single content block appends to `outputs` in
`process_assistant_message` (lines 108-126): a dict of type `text` whose
stripped text is non-empty yields an `assistant` record; a dict of type
`tool_use` yields a `tool_use` record (the dict `{"type": "tool_use",
**simplified}` is `("type", _) :: simplified` because
`simplify_tool_use` never emits a `type` key); every other block —
including `thinking` blocks and non-dict items — yields nothing. -/
def assistantRecord : JVal → Option JObj
  | .obj o =>
    if jIs (jget o "type") "text" then
      if (jgetStr o "text" "").trim == "" then none
      else some [("type", JVal.str "assistant"), ("text", .str ((jgetStr o "text" "").trim))]
    else if jIs (jget o "type") "tool_use" then
      some (("type", JVal.str "tool_use") :: simplify_tool_use o)
    else none
  | _ => none

/-- The registry assignment a single content block performs in
`process_assistant_message` (line 123): a `tool_use` block stores its
simplified record under `item.get("id", "")`; other blocks leave the
registry unchanged. -/
def registryUpdate (reg : Registry) : JVal → Registry
  | .obj o =>
    if jIs (jget o "type") "tool_use" then
      regSet reg (jgetD o "id" (.str "")) (simplify_tool_use o)
    else reg
  | _ => reg

/-- `process_assistant_message(content, tool_uses)` (lines 104-127): walk
the blocks in order, appending each block's record (if any) and
performing each block's registry assignment.  Returns the emitted
records and the updated registry (the source mutates `tool_uses` in
place). -/
def process_assistant_message (content : List JVal) (tool_uses : Registry) :
    List JObj × Registry :=
  content.foldl (fun acc item =>
    (acc.1 ++ (assistantRecord item).toList, registryUpdate acc.2 item)) ([], tool_uses)

/-- The `result` record a single content block appends to `outputs` in
the loop of `process_user_message` (lines 140-143): a dict of type
`tool_result` yields its reduced record (the dict `{"type": "result",
**result}` is `("type", _) :: result` because `process_tool_result`
never emits a `type` key); other blocks yield nothing. -/
def resultRecord (tool_uses : Registry) : JVal → Option JObj
  | .obj o =>
    if jIs (jget o "type") "tool_result" then
      some (("type", JVal.str "result") :: process_tool_result o tool_uses)
    else none
  | _ => none

/-- `process_user_message(content, tool_uses)` (lines 130-145): first the
collapsed user text, if any, then one `result` record per `tool_result`
block in order. -/
def process_user_message (content : List JVal) (tool_uses : Registry) : List JObj :=
  let outputs : List JObj := match extract_user_text content with
    | some user_text => [[("type", .str "user"), ("text", .str user_text)]]
    | none => []
  content.foldl (fun acc item => acc ++ (resultRecord tool_uses item).toList) outputs

/-- The counters of `streamline` (lines 150-156). -/
structure Stats where
  input_lines : Nat
  input_bytes : Nat
  output_lines : Nat
  output_bytes : Nat
  dropped_records : Nat
deriving DecidableEq

/-- The initial stats dict. -/
def Stats.init : Stats :=
  ⟨0, 0, 0, 0, 0⟩

/-- One raw input line together with its `json.loads` outcome: `none` when
the line is not valid JSON, otherwise the parsed record.  Records of the
input data model (§3 of the design) are JSON objects; the parser is the
Python standard library, outside the engine. -/
structure Line where
  raw : String
  parsed : Option JObj

/-- Python iteration over a message `content` value as the processors
perform it: a list yields its elements, a string yields its characters
one by one (the char-by-char case), a dict yields its keys.  Other values
are not iterable (Python would raise `TypeError`, which no engine path
catches); they are modelled as yielding nothing. -/
def toItems : JVal → List JVal
  | .arr xs => xs
  | .str s => s.data.map (fun c => .str (String.singleton c))
  | .obj fs => fs.map (fun p => .str p.1)
  | _ => []

/-- `record.get("message", {}).get("content", [])` (lines 178 and 181),
as a sequence of iterated items. -/
def contentItems (record : JObj) : List JVal :=
  let msg : JObj := match jget record "message" with
    | some (.obj o) => o
    | _ => []
  toItems (jgetD msg "content" (.arr []))

/-- The whole state of one pass: the stats dict, the tool-use registry and
the output records written so far (the source writes each record to the
output stream as it is produced). -/
structure PassState where
  stats : Stats
  tool_uses : Registry
  records : List JObj

/-- The initial pass state. -/
def PassState.init : PassState :=
  ⟨Stats.init, [], []⟩

/-- Writing the produced records (lines 189-193): serialize each record
compactly on its own line and count it. -/
def emitOutputs (st : PassState) (outputs : List JObj) : PassState :=
  outputs.foldl (fun s o =>
    let output_line := dumps (.obj o) ++ "\n"
    { stats := { s.stats with
        output_lines := s.stats.output_lines + 1,
        output_bytes := s.stats.output_bytes + output_line.length },
      tool_uses := s.tool_uses,
      records := s.records ++ [o] }) st

/-- One iteration of the loop of `streamline` (lines 160-193): count the
line, skip it on parse failure, drop non-essential and unknown record
types, dispatch `assistant` and `user` records to their processors and
write what they produce. -/
def streamlineLine (st : PassState) (line : Line) : PassState :=
  let st : PassState :=
    { st with stats := { st.stats with
        input_lines := st.stats.input_lines + 1,
        input_bytes := st.stats.input_bytes + line.raw.length } }
  match line.parsed with
  | none => st
  | some record =>
    let record_type := jget record "type"
    if jIs record_type "file-history-snapshot" || jIs record_type "queue-operation" then
      { st with stats := { st.stats with dropped_records := st.stats.dropped_records + 1 } }
    else if jIs record_type "assistant" then
      let pr := process_assistant_message (contentItems record) st.tool_uses
      emitOutputs { st with tool_uses := pr.2 } pr.1
    else if jIs record_type "user" then
      emitOutputs st (process_user_message (contentItems record) st.tool_uses)
    else
      { st with stats := { st.stats with dropped_records := st.stats.dropped_records + 1 } }

/-- `streamline(input_file, output_file)` (lines 148-195) over a list of
input lines. -/
def streamline (lines : List Line) : PassState :=
  lines.foldl streamlineLine PassState.init

/-- The reduction ratio computed by `main` (line 235):
`input_bytes / output_bytes if output_bytes else 0`. -/
def reduction (stats : Stats) : ℚ :=
  if stats.output_bytes ≠ 0 then (stats.input_bytes : ℚ) / (stats.output_bytes : ℚ) else 0

/-! ### Derived definitions used by the theorems -/

/-- The length of the serialized line one output record produces. -/
def lineLen (o : JObj) : Nat :=
  (dumps (.obj o) ++ "\n").length

/-- The input lines the router counts as dropped: those that parse and
whose type is `file-history-snapshot`, `queue-operation`, or anything
other than `assistant`/`user`. -/
def droppedLine (l : Line) : Bool :=
  match l.parsed with
  | none => false
  | some record =>
    jIs (jget record "type") "file-history-snapshot" ||
      jIs (jget record "type") "queue-operation" ||
      !(jIs (jget record "type") "assistant" || jIs (jget record "type") "user")

/-- The output records one input line produces, given the registry in
force when it is processed. -/
def lineOutputs (reg : Registry) (l : Line) : List JObj :=
  match l.parsed with
  | none => []
  | some record =>
    if jIs (jget record "type") "file-history-snapshot" ||
        jIs (jget record "type") "queue-operation" then []
    else if jIs (jget record "type") "assistant" then
      (process_assistant_message (contentItems record) reg).1
    else if jIs (jget record "type") "user" then
      process_user_message (contentItems record) reg
    else []

/-- The registry one input line leaves behind, given the registry in
force when it is processed. -/
def lineRegistry (reg : Registry) (l : Line) : Registry :=
  match l.parsed with
  | none => reg
  | some record =>
    if jIs (jget record "type") "assistant" then
      (process_assistant_message (contentItems record) reg).2
    else reg

/-- Content payloads from which the result reducer can extract no error
text: not a string and not a sequence whose first element is a dict or a
string. -/
def noErrorText : JVal → Bool
  | .str _ => false
  | .arr (.obj _ :: _) => false
  | .arr (.str _ :: _) => false
  | _ => true

/-- The error field appended by `process_tool_result`, by itself. -/
def errorField (tool_result : JObj) : JObj :=
  if tr_is_error tool_result then
    match tr_content tool_result with
    | .str s => [("error", .str (s.take 200))]
    | .arr (first :: _) =>
      match first with
      | .obj o => [("error", .str ((jgetStr o "text" "").take 200))]
      | .str s => [("error", .str (s.take 200))]
      | _ => []
    | _ => []
  else []

/-- The per-field truncation bounds that hold of every emitted record:
`cmd` at most 203 characters (200 plus the appended ellipsis), Grep
`pattern` at most 100, `error` at most 200, every `TodoWrite` item text
at most 50, every mcp `params` value at most 100, and each emitted
fallback probe value at most 200 (among the probe keys, `path` and `id`
are excluded here: `path` is also emitted untruncated by `Grep` and `id`
is also the untruncated invocation id). -/
def boundedRecord (rec : JObj) : Prop :=
  (∀ s, jget rec "cmd" = some (.str s) → s.length ≤ 203) ∧
  (jIs (jget rec "tool") "Grep" = true →
    ∀ s, jget rec "pattern" = some (.str s) → s.length ≤ 100) ∧
  (∀ s, jget rec "error" = some (.str s) → s.length ≤ 200) ∧
  (∀ xs, jget rec "todos" = some (.arr xs) →
    ∀ v ∈ xs, ∃ s, v = JVal.str s ∧ s.length ≤ 50) ∧
  (∀ ps, jget rec "params" = some (.obj ps) →
    ∀ p ∈ ps, ∃ s, p.2 = JVal.str s ∧ s.length ≤ 100) ∧
  (∀ k, k = "file_path" ∨ k = "query" ∨ k = "url" →
    ∀ v, jget rec k = some v → ∃ s, v = JVal.str s ∧ s.length ≤ 200)

/-- The collapsed user text of a content sequence, stated the way the
design document words it: for each block that is a bare string or a
`text`-typed block, take its text; concatenate with no separator in block
order; trim the concatenation. -/
def collapsedText (content : List JVal) : String :=
  (String.join (content.filterMap textOf)).trim

/-! ### Decompositions of the processors -/

/-- An accumulate-on-match fold is an append of the matched results. -/
theorem foldl_opt_append {α β : Type} (g : α → Option β) :
    ∀ (l : List α) (acc : List β),
      l.foldl (fun a x => a ++ (g x).toList) acc = acc ++ l.filterMap g := by
  intro l
  induction l with
  | nil => intro acc; simp
  | cons x xs ih =>
    intro acc
    rw [List.foldl_cons, ih, List.filterMap_cons]
    cases h : g x <;> simp [h]

/-- The text parts collected by `extract_user_text` are the `textOf`
projections of the blocks, in order. -/
theorem extract_user_text_eq (content : List JVal) :
    extract_user_text content =
      if collapsedText content == "" then none
      else some (collapsedText content) := by
  unfold extract_user_text collapsedText
  rw [foldl_opt_append textOf content []]
  simp

/-- The result-record loop of `process_user_message` appends one record
per `tool_result` block, in order, after the collapsed user text. -/
theorem process_user_message_eq (content : List JVal) (tool_uses : Registry) :
    process_user_message content tool_uses =
      (match extract_user_text content with
        | some user_text => [[("type", JVal.str "user"), ("text", .str user_text)]]
        | none => []) ++ content.filterMap (resultRecord tool_uses) := by
  unfold process_user_message
  rw [foldl_opt_append (resultRecord tool_uses) content]

/-- The records of `process_assistant_message` are the per-block records,
in block order; the final registry is the fold of the per-block registry
assignments. -/
theorem process_assistant_message_eq (content : List JVal) (tool_uses : Registry) :
    process_assistant_message content tool_uses =
      (content.filterMap assistantRecord, content.foldl registryUpdate tool_uses) := by
  unfold process_assistant_message
  suffices h : ∀ (acc : List JObj × Registry),
      (content.foldl (fun acc item =>
        (acc.1 ++ (assistantRecord item).toList, registryUpdate acc.2 item)) acc)
        = (acc.1 ++ content.filterMap assistantRecord, content.foldl registryUpdate acc.2) by
    simpa using h ([], tool_uses)
  induction content with
  | nil => intro acc; simp
  | cons x xs ih =>
    intro acc
    rw [List.foldl_cons, List.foldl_cons, List.filterMap_cons, ih]
    cases h : assistantRecord x <;> simp [h]

/-! ### Decomposition of the pass -/

/-- Writing one record and then the rest. -/
theorem emitOutputs_cons (st : PassState) (o : JObj) (os : List JObj) :
    emitOutputs st (o :: os) =
      emitOutputs
        ⟨{ st.stats with
            output_lines := st.stats.output_lines + 1,
            output_bytes := st.stats.output_bytes + lineLen o },
          st.tool_uses, st.records ++ [o]⟩ os :=
  rfl

/-- Writing records appends them to the pass output, advances the output
counters by their number and serialized size, and changes nothing else. -/
theorem emitOutputs_eq :
    ∀ (outputs : List JObj) (st : PassState),
      emitOutputs st outputs =
        ⟨{ st.stats with
            output_lines := st.stats.output_lines + outputs.length,
            output_bytes := st.stats.output_bytes + (outputs.map lineLen).sum },
          st.tool_uses, st.records ++ outputs⟩ := by
  intro outputs
  induction outputs with
  | nil =>
    intro st
    obtain ⟨⟨il, ib, ol, ob, dr⟩, reg, recs⟩ := st
    simp [emitOutputs]
  | cons o os ih =>
    intro st
    obtain ⟨⟨il, ib, ol, ob, dr⟩, reg, recs⟩ := st
    rw [emitOutputs_cons, ih]
    simp
    omega

/-- A value compares equal to at most one string literal. -/
theorem jIs_unique {v : Option JVal} {s t : String} (h : jIs v s = true)
    (hne : t ≠ s) : jIs v t = false := by
  cases v with
  | none => simp [jIs] at h
  | some x =>
    cases x with
    | str u =>
      simp only [jIs, beq_iff_eq] at h
      subst h
      simp only [jIs, beq_eq_false_iff_ne, ne_eq]
      exact fun hc => hne hc.symm
    | num n => simp [jIs] at h
    | bool b => simp [jIs] at h
    | null => simp [jIs] at h
    | arr xs => simp [jIs] at h
    | obj fs => simp [jIs] at h

/-- One iteration of the pass, in closed form: the line and byte counters
always advance, the drop counter advances exactly on explicitly dropped
lines, the line's output records are appended and counted, and the
registry is updated by `assistant` records only. -/
theorem streamlineLine_eq (st : PassState) (l : Line) :
    streamlineLine st l =
      ⟨{ input_lines := st.stats.input_lines + 1,
          input_bytes := st.stats.input_bytes + l.raw.length,
          output_lines := st.stats.output_lines + (lineOutputs st.tool_uses l).length,
          output_bytes := st.stats.output_bytes + ((lineOutputs st.tool_uses l).map lineLen).sum,
          dropped_records := st.stats.dropped_records + (if droppedLine l then 1 else 0) },
        lineRegistry st.tool_uses l,
        st.records ++ lineOutputs st.tool_uses l⟩ := by
  obtain ⟨⟨il, ib, ol, ob, dr⟩, reg, recs⟩ := st
  unfold streamlineLine lineOutputs lineRegistry droppedLine
  cases hp : l.parsed with
  | none => simp
  | some record =>
    by_cases ha : jIs (jget record "type") "file-history-snapshot" = true
    · have h1 : jIs (jget record "type") "queue-operation" = false :=
        jIs_unique ha (by decide)
      have h2 : jIs (jget record "type") "assistant" = false :=
        jIs_unique ha (by decide)
      have h3 : jIs (jget record "type") "user" = false :=
        jIs_unique ha (by decide)
      simp [ha, h1, h2, h3]
    · by_cases hb : jIs (jget record "type") "queue-operation" = true
      · have h2 : jIs (jget record "type") "assistant" = false :=
          jIs_unique hb (by decide)
        have h3 : jIs (jget record "type") "user" = false :=
          jIs_unique hb (by decide)
        simp [hb, h2, h3]
      · by_cases hc : jIs (jget record "type") "assistant" = true
        · simp [ha, hb, hc, emitOutputs_eq]
        · by_cases hd : jIs (jget record "type") "user" = true
          · simp [ha, hb, hc, hd, emitOutputs_eq]
          · simp [ha, hb, hc, hd]

/-- The whole pass, one line at a time. -/
theorem streamline_cons (l : Line) (lines : List Line) :
    ∀ (st : PassState),
      (l :: lines).foldl streamlineLine st = lines.foldl streamlineLine (streamlineLine st l) := by
  intro st
  rw [List.foldl_cons]

/-- The reducer never reads its registry argument. -/
theorem resultRecord_registry_independent (r1 r2 : Registry) :
    resultRecord r1 = resultRecord r2 := by
  funext x
  cases x <;> rfl

/-- The output records of one line do not depend on the registry in force. -/
theorem lineOutputs_registry_independent (r1 r2 : Registry) (l : Line) :
    lineOutputs r1 l = lineOutputs r2 l := by
  unfold lineOutputs
  cases l.parsed with
  | none => rfl
  | some record =>
    by_cases h1 : jIs (jget record "type") "file-history-snapshot" ||
        jIs (jget record "type") "queue-operation"
    · simp [h1]
    · by_cases h2 : jIs (jget record "type") "assistant"
      · simp [h1, h2, process_assistant_message_eq]
      · by_cases h3 : jIs (jget record "type") "user"
        · simp [h1, h2, h3, process_user_message_eq,
            resultRecord_registry_independent r1 r2]
        · simp [h1, h2, h3]

/-! ### The claims -/

/-- Claim C4: an input line that is not valid JSON yields no output
records, leaves the drop counter and the registry unchanged, and the
pass continues; the input line and byte counters are still advanced for
that line. -/
theorem C4_parse_failure_skips (st : PassState) (l : Line) (h : l.parsed = none) :
    streamlineLine st l =
      ⟨{ st.stats with
          input_lines := st.stats.input_lines + 1,
          input_bytes := st.stats.input_bytes + l.raw.length },
        st.tool_uses, st.records⟩ := by
  unfold streamlineLine
  rw [h]

/-- Witness for C4 at a concrete unparseable line. -/
theorem C4_parse_failure_skips_witness :
    streamlineLine PassState.init ⟨"not json\n", none⟩ =
      ⟨{ Stats.init with input_lines := 1, input_bytes := 9 }, [], []⟩ :=
  C4_parse_failure_skips PassState.init ⟨"not json\n", none⟩ rfl

/-- Claim C8: the tool-use registry is write-only — processing any line
from two pass states that differ only in the registry yields identical
stats and identical output records; only the registry itself may differ. -/
theorem C8_registry_noninterference (stats : Stats) (r1 r2 : Registry)
    (recs : List JObj) (l : Line) :
    (streamlineLine ⟨stats, r1, recs⟩ l).stats = (streamlineLine ⟨stats, r2, recs⟩ l).stats ∧
    (streamlineLine ⟨stats, r1, recs⟩ l).records =
      (streamlineLine ⟨stats, r2, recs⟩ l).records := by
  rw [streamlineLine_eq, streamlineLine_eq]
  simp [lineOutputs_registry_independent r1 r2 l]

/-- `process_tool_result` is the id/ok pair followed by the error field. -/
theorem process_tool_result_eq (tool_result : JObj) (tool_uses : Registry) :
    process_tool_result tool_result tool_uses =
      [("id", jgetD tool_result "tool_use_id" (.str "")),
        ("ok", .bool (!tr_is_error tool_result))] ++ errorField tool_result := by
  unfold process_tool_result errorField
  by_cases he : tr_is_error tool_result
  · simp only [he, if_true]
    cases hc : tr_content tool_result with
    | arr xs =>
      cases xs with
      | nil => simp
      | cons first rest => cases first <;> simp
    | str s => simp
    | num n => simp
    | bool b => simp
    | null => simp
    | obj o => simp
  · simp [he]

/-- Claim C2: for every `tool_result` block the reducer emits the
invocation id and `ok` = not the error flag; with the error flag set, a
plain-string payload gives a 200-char `error`, a sequence payload gives
the first element's text (200 chars) when that element is a dict, or the
element itself (200 chars) when it is a plain string; when no text is
extractable the `error` field is omitted; without the error flag there is
no `error` field. -/
theorem C2_tool_result_reduction (tool_result : JObj) (tool_uses : Registry) :
    jget (process_tool_result tool_result tool_uses) "id"
        = some (jgetD tool_result "tool_use_id" (.str "")) ∧
    jget (process_tool_result tool_result tool_uses) "ok"
        = some (.bool (!tr_is_error tool_result)) ∧
    (tr_is_error tool_result = false →
      jget (process_tool_result tool_result tool_uses) "error" = none) ∧
    (tr_is_error tool_result = true → ∀ s, tr_content tool_result = .str s →
      jget (process_tool_result tool_result tool_uses) "error" = some (.str (s.take 200))) ∧
    (tr_is_error tool_result = true →
      ∀ o rest, tr_content tool_result = .arr (.obj o :: rest) →
      jget (process_tool_result tool_result tool_uses) "error"
        = some (.str ((jgetStr o "text" "").take 200))) ∧
    (tr_is_error tool_result = true →
      ∀ s rest, tr_content tool_result = .arr (.str s :: rest) →
      jget (process_tool_result tool_result tool_uses) "error" = some (.str (s.take 200))) ∧
    (tr_is_error tool_result = true → noErrorText (tr_content tool_result) = true →
      jget (process_tool_result tool_result tool_uses) "error" = none) := by
  rw [process_tool_result_eq]
  refine ⟨by simp [jget], by simp [jget], ?_, ?_, ?_, ?_, ?_⟩
  · intro he
    simp [jget, errorField, he]
  · intro he s hc
    simp [jget, errorField, he, hc]
  · intro he o rest hc
    simp [jget, errorField, he, hc]
  · intro he s rest hc
    simp [jget, errorField, he, hc]
  · intro he hn
    cases hc : tr_content tool_result with
    | arr xs =>
      cases xs with
      | nil => simp [jget, errorField, he, hc]
      | cons first rest =>
        cases first <;> simp_all [noErrorText] <;> simp [jget, errorField, he, hc]
    | str s => rw [hc] at hn; simp [noErrorText] at hn
    | num n => simp [jget, errorField, he, hc]
    | bool b => simp [jget, errorField, he, hc]
    | null => simp [jget, errorField, he, hc]
    | obj o => simp [jget, errorField, he, hc]

/-- Witness for C2 at a concrete erroring `tool_result` block. -/
theorem C2_tool_result_reduction_witness :
    jget (process_tool_result
        [("tool_use_id", .str "t1"), ("is_error", .bool true), ("content", .str "boom")] [])
      "error" = some (.str ("boom".take 200)) :=
  ((C2_tool_result_reduction
      [("tool_use_id", .str "t1"), ("is_error", .bool true), ("content", .str "boom")]
      []).2.2.2.1) rfl "boom" rfl

/-! #### The branches of `simplify_tool_use`, as equations -/

/-- The `Read` branch of the extraction table (line 48). -/
theorem simplify_tool_use_read (tu : JObj) (h : tu_name tu = "Read") :
    simplify_tool_use tu =
      [("tool", .str "Read"), ("id", tu_id tu),
        ("target", jgetD (tu_input tu) "file_path" (.str ""))] := by
  unfold simplify_tool_use
  rw [h]
  rfl

/-- The `Edit` branch of the extraction table (line 50). -/
theorem simplify_tool_use_edit (tu : JObj) (h : tu_name tu = "Edit") :
    simplify_tool_use tu =
      [("tool", .str "Edit"), ("id", tu_id tu),
        ("target", jgetD (tu_input tu) "file_path" (.str ""))] := by
  unfold simplify_tool_use
  rw [h]
  rfl

/-- The `Write` branch of the extraction table (line 52). -/
theorem simplify_tool_use_write (tu : JObj) (h : tu_name tu = "Write") :
    simplify_tool_use tu =
      [("tool", .str "Write"), ("id", tu_id tu),
        ("target", jgetD (tu_input tu) "file_path" (.str ""))] := by
  unfold simplify_tool_use
  rw [h]
  rfl

/-- The `Bash` branch of the extraction table (lines 53-56). -/
theorem simplify_tool_use_bash (tu : JObj) (h : tu_name tu = "Bash") :
    simplify_tool_use tu =
      [("tool", .str "Bash"), ("id", tu_id tu),
        ("cmd", .str (if 200 < (jgetStr (tu_input tu) "command" "").length then
          (jgetStr (tu_input tu) "command" "").take 200 ++ "..."
          else jgetStr (tu_input tu) "command" ""))] := by
  unfold simplify_tool_use
  rw [h]
  rfl

/-- The `Grep` branch of the extraction table (lines 57-60). -/
theorem simplify_tool_use_grep (tu : JObj) (h : tu_name tu = "Grep") :
    simplify_tool_use tu =
      [("tool", .str "Grep"), ("id", tu_id tu),
        ("pattern", .str ((jgetStr (tu_input tu) "pattern" "").take 100))] ++
      (match jget (tu_input tu) "path" with
        | some v => if pyTruthy v then [("path", v)] else []
        | none => []) := by
  unfold simplify_tool_use
  rw [h]
  cases hp : jget (tu_input tu) "path" with
  | none => simp [hp]
  | some v => by_cases ht : pyTruthy v <;> simp [hp, ht]

/-- The `Glob` branch of the extraction table (line 62). -/
theorem simplify_tool_use_glob (tu : JObj) (h : tu_name tu = "Glob") :
    simplify_tool_use tu =
      [("tool", .str "Glob"), ("id", tu_id tu),
        ("pattern", jgetD (tu_input tu) "pattern" (.str ""))] := by
  unfold simplify_tool_use
  rw [h]
  rfl

/-- The `Task` branch of the extraction table (lines 63-65). -/
theorem simplify_tool_use_task (tu : JObj) (h : tu_name tu = "Task") :
    simplify_tool_use tu =
      [("tool", .str "Task"), ("id", tu_id tu),
        ("desc", jgetD (tu_input tu) "description" (.str "")),
        ("agent", jgetD (tu_input tu) "subagent_type" (.str ""))] := by
  unfold simplify_tool_use
  rw [h]
  rfl

/-- The `TodoWrite` branch of the extraction table (lines 66-68). -/
theorem simplify_tool_use_todowrite (tu : JObj) (h : tu_name tu = "TodoWrite") :
    simplify_tool_use tu =
      [("tool", .str "TodoWrite"), ("id", tu_id tu),
        ("todos", .arr (((match jget (tu_input tu) "todos" with
          | some (.arr xs) => xs
          | some _ => []
          | none => []).take 5).map (fun t => .str ((todoText t).take 50))))] := by
  unfold simplify_tool_use
  rw [h]
  rfl

/-- A name that starts with `mcp__` is none of the table's literal names. -/
theorem name_ne_of_startsWith {n : String} (h : isMcpName n = true)
    {s : String} (hs : isMcpName s = false) : (n == s) = false := by
  cases hq : n == s
  · rfl
  · have hn : n = s := by simpa using hq
    rw [hn, hs] at h
    cases h

/-- The `mcp__*` branch of the extraction table (lines 69-71). -/
theorem simplify_tool_use_mcp (tu : JObj) (h : isMcpName (tu_name tu) = true) :
    simplify_tool_use tu =
      [("tool", .str (tu_name tu)), ("id", tu_id tu),
        ("params", .obj (((tu_input tu).take 3).map
          (fun p => (p.1, .str ((pyStr p.2).take 100)))))] := by
  unfold simplify_tool_use
  have h1 := name_ne_of_startsWith h (s := "Read") (by decide)
  have h2 := name_ne_of_startsWith h (s := "Edit") (by decide)
  have h3 := name_ne_of_startsWith h (s := "Write") (by decide)
  have h4 := name_ne_of_startsWith h (s := "Bash") (by decide)
  have h5 := name_ne_of_startsWith h (s := "Grep") (by decide)
  have h6 := name_ne_of_startsWith h (s := "Glob") (by decide)
  have h7 := name_ne_of_startsWith h (s := "Task") (by decide)
  have h8 := name_ne_of_startsWith h (s := "TodoWrite") (by decide)
  simp [h1, h2, h3, h4, h5, h6, h7, h8, h]

/-- The fallback branch of the extraction table (lines 72-77). -/
theorem simplify_tool_use_fallback (tu : JObj)
    (h1 : (tu_name tu == "Read") = false) (h2 : (tu_name tu == "Edit") = false)
    (h3 : (tu_name tu == "Write") = false) (h4 : (tu_name tu == "Bash") = false)
    (h5 : (tu_name tu == "Grep") = false) (h6 : (tu_name tu == "Glob") = false)
    (h7 : (tu_name tu == "Task") = false) (h8 : (tu_name tu == "TodoWrite") = false)
    (h9 : isMcpName (tu_name tu) = false) :
    simplify_tool_use tu =
      (match ["file_path", "path", "query", "url", "id"].find?
          (fun k => (jget (tu_input tu) k).isSome) with
        | some k => jset [("tool", .str (tu_name tu)), ("id", tu_id tu)] k
            (.str ((pyStr ((jget (tu_input tu) k).getD .null)).take 200))
        | none => [("tool", .str (tu_name tu)), ("id", tu_id tu)]) := by
  unfold simplify_tool_use
  simp [h1, h2, h3, h4, h5, h6, h7, h8, h9]

/-- Claim C6: for every `Bash` tool use, the emitted `cmd` equals the
input command unchanged when its length is at most 200 characters, and
otherwise equals the first 200 characters followed by `...`, which is
exactly 203 characters. -/
theorem C6_bash_cmd_truncation (tool_use : JObj) (cmd : String)
    (hname : tu_name tool_use = "Bash")
    (hcmd : jgetStr (tu_input tool_use) "command" "" = cmd) :
    (cmd.length ≤ 200 → jget (simplify_tool_use tool_use) "cmd" = some (.str cmd)) ∧
    (200 < cmd.length →
      jget (simplify_tool_use tool_use) "cmd" = some (.str (cmd.take 200 ++ "...")) ∧
      (cmd.take 200 ++ "...").length = 203) := by
  rw [simplify_tool_use_bash tool_use hname, hcmd]
  constructor
  · intro hle
    have hlt : ¬(200 < cmd.length) := by omega
    simp [jget, hlt]
  · intro hgt
    constructor
    · simp [jget, hgt]
    · have htake : (cmd.take 200).length = 200 := by
        rw [← String.length_data, String.data_take, List.length_take, String.length_data]
        omega
      have happ : (cmd.take 200 ++ "...").length = (cmd.take 200).length + 3 := by
        rw [String.length_append]
        rfl
      omega

/-- Witness for C6 at a concrete 250-character command. -/
theorem C6_bash_cmd_truncation_witness :
    jget (simplify_tool_use
        [("name", .str "Bash"), ("id", .str "t1"),
          ("input", .obj [("command", .str (List.asString (List.replicate 250 'a')))])])
      "cmd"
      = some (.str ((List.asString (List.replicate 250 'a')).take 200 ++ "...")) ∧
    ((List.asString (List.replicate 250 'a')).take 200 ++ "...").length = 203 :=
  (C6_bash_cmd_truncation
      [("name", .str "Bash"), ("id", .str "t1"),
        ("input", .obj [("command", .str (List.asString (List.replicate 250 'a')))])]
      (List.asString (List.replicate 250 'a')) rfl rfl).2
    (by rw [List.length_asString, List.length_replicate]; omega)

/-- Claim C3: a user message yields at most one `user` record — carrying
the trimmed no-separator concatenation of every bare-string and
`text`-block text across the whole content sequence, emitted only when
non-empty — and it precedes every `result` record of that message, no
matter how the blocks are interleaved. -/
theorem C3_user_text_first (content : List JVal) (tool_uses : Registry) :
    process_user_message content tool_uses =
      (if collapsedText content == "" then []
        else [[("type", JVal.str "user"), ("text", .str (collapsedText content))]])
      ++ content.filterMap (resultRecord tool_uses) := by
  rw [process_user_message_eq, extract_user_text_eq]
  by_cases h : collapsedText content == "" <;> simp [h]

/-- Flattening the singleton character lists of a list restores it. -/
theorem flatten_singletons :
    ∀ (l : List Char), (l.map (fun c => (String.singleton c).data)).flatten = l := by
  intro l
  induction l with
  | nil => rfl
  | cons c cs ih => simp [String.singleton] at ih ⊢; exact ih

/-- Joining the singleton strings of a character list restores it. -/
theorem join_map_singleton (l : List Char) :
    String.join (l.map String.singleton) = l.asString := by
  apply String.toList_inj.mp
  show (String.join (l.map String.singleton)).data = (l.asString).data
  rw [String.data_join, List.map_map]
  have hd : (l.asString).data = l := List.toList_asString l
  rw [hd]
  exact flatten_singletons l

/-- The character items of a plain-string content value collapse back to
the string itself. -/
theorem collapsedText_char_items (s : String) :
    collapsedText (s.data.map (fun c => .str (String.singleton c))) = s.trim := by
  unfold collapsedText
  rw [List.filterMap_map]
  have hc : (textOf ∘ fun c => JVal.str (String.singleton c))
      = (fun c => some (String.singleton c)) := rfl
  rw [hc]
  have hm : ∀ (l : List Char), l.filterMap (fun c => some (String.singleton c))
      = l.map String.singleton := by
    intro l
    induction l with
    | nil => rfl
    | cons c cs ih => simp [List.filterMap_cons, ih]
  rw [hm, join_map_singleton]
  have ha : (s.data).asString = s := String.asString_toList s
  rw [ha]

/-- A plain-string user content yields the stripped text and no results. -/
theorem process_user_message_char_items (s : String) (reg : Registry) :
    process_user_message (s.data.map (fun c => .str (String.singleton c))) reg
      = (if s.trim == "" then []
          else [[("type", JVal.str "user"), ("text", .str (s.trim))]]) := by
  rw [process_user_message_eq, extract_user_text_eq, collapsedText_char_items]
  have hr : (s.data.map (fun c => JVal.str (String.singleton c))).filterMap
      (resultRecord reg) = [] := by
    rw [List.filterMap_map]
    simp [List.filterMap_eq_nil_iff]
    intro c hc
    rfl
  rw [hr]
  by_cases h : s.trim == "" <;> simp [h]

/-- Claim C9: a `user` record whose message content is a plain string is
iterated character by character and collapsed back into exactly one user
record holding the stripped string (none when the stripped string is
empty) with no `result` records; an `assistant` record with plain-string
content yields no output records at all. -/
theorem C9_plain_string_content (stats : Stats) (reg : Registry) (recs : List JObj)
    (raw s : String) :
    (streamlineLine ⟨stats, reg, recs⟩
        ⟨raw, some [("type", .str "user"), ("message", .obj [("content", .str s)])]⟩).records
      = recs ++ (if s.trim == "" then []
          else [[("type", JVal.str "user"), ("text", .str (s.trim))]]) ∧
    (streamlineLine ⟨stats, reg, recs⟩
        ⟨raw, some [("type", .str "assistant"), ("message", .obj [("content", .str s)])]⟩).records
      = recs := by
  constructor
  · rw [streamlineLine_eq]
    show recs ++ lineOutputs reg _ = _
    unfold lineOutputs
    simp only [jIs, jget, jgetD, contentItems, toItems]
    norm_num [List.find?, process_user_message_char_items s reg]
    rw [if_neg (by decide), if_neg (by decide)]
  · rw [streamlineLine_eq]
    show recs ++ lineOutputs reg _ = _
    unfold lineOutputs
    simp only [jIs, jget, jgetD, contentItems, toItems]
    norm_num [List.find?, process_assistant_message_eq]
    intro h1 h2 c hc
    rfl

/-- The output byte counter is always the summed length of the
serialized records. -/
theorem output_bytes_eq_sum (lines : List Line) :
    (streamline lines).stats.output_bytes
      = ((streamline lines).records.map lineLen).sum := by
  suffices h : ∀ st : PassState,
      st.stats.output_bytes = (st.records.map lineLen).sum →
      (lines.foldl streamlineLine st).stats.output_bytes
        = ((lines.foldl streamlineLine st).records.map lineLen).sum from
    h PassState.init rfl
  induction lines with
  | nil => intro st h; exact h
  | cons l ls ih =>
    intro st h
    rw [List.foldl_cons]
    apply ih
    rw [streamlineLine_eq]
    simp [h]

/-- Claim C10: the stats report never divides by zero — a pass that
emitted no output records has a zero output byte counter and reports a
reduction ratio of 0; otherwise the ratio is input bytes over output
bytes. -/
theorem C10_no_division_by_zero (lines : List Line) :
    ((streamline lines).records = [] →
      (streamline lines).stats.output_bytes = 0 ∧
      reduction (streamline lines).stats = 0) ∧
    ((streamline lines).stats.output_bytes ≠ 0 →
      reduction (streamline lines).stats
        = ((streamline lines).stats.input_bytes : ℚ)
          / ((streamline lines).stats.output_bytes : ℚ)) := by
  constructor
  · intro h
    have hb : (streamline lines).stats.output_bytes = 0 := by
      rw [output_bytes_eq_sum, h]
      rfl
    exact ⟨hb, by simp [reduction, hb]⟩
  · intro h
    simp [reduction, h]

/-- Witness for C10 on the empty input stream. -/
theorem C10_no_division_by_zero_witness :
    (streamline []).stats.output_bytes = 0 ∧ reduction (streamline []).stats = 0 :=
  (C10_no_division_by_zero []).1 rfl

/-- Claim C5: at end of pass the dropped-record counter equals exactly
the number of input lines that parsed and whose type is
`file-history-snapshot`, `queue-operation`, or anything other than
`assistant`/`user`; unparseable lines are not counted. -/
theorem C5_drop_accounting (lines : List Line) :
    (streamline lines).stats.dropped_records = lines.countP droppedLine := by
  suffices h : ∀ st : PassState,
      (lines.foldl streamlineLine st).stats.dropped_records
        = st.stats.dropped_records + lines.countP droppedLine from by
    have h0 := h PassState.init
    simpa [streamline, PassState.init, Stats.init] using h0
  induction lines with
  | nil => intro st; simp
  | cons l ls ih =>
    intro st
    rw [List.foldl_cons, ih, streamlineLine_eq]
    by_cases hd : droppedLine l <;> simp [hd, List.countP_cons] <;> omega

/-- Counterexample to claim C1 as stated: for `TodoWrite` with no
`todos` key, and for an `mcp__`-prefixed tool with an empty payload, the
assigned field is present but holds an empty list (respectively an empty
mapping), not an empty string. -/
theorem C1_counterexample :
    jget (simplify_tool_use
        [("name", .str "TodoWrite"), ("id", .str "t1"), ("input", .obj [])])
      "todos" = some (.arr []) ∧
    JVal.arr [] ≠ JVal.str "" ∧
    jget (simplify_tool_use
        [("name", .str "mcp__srv__fn"), ("id", .str "t2"), ("input", .obj [])])
      "params" = some (.obj []) ∧
    JVal.obj [] ≠ JVal.str "" :=
  ⟨rfl, fun h => JVal.noConfusion h, rfl, fun h => JVal.noConfusion h⟩

/-- Claim C1 (amended): every tool-specific field the extraction table
unconditionally assigns is always present in the simplified record; when
the corresponding input key is absent the value is empty — the empty
string for the string-valued fields (`target`, `cmd`, `pattern`, `desc`,
`agent`), the empty list for `TodoWrite`'s `todos`, and the empty
mapping for an `mcp__` tool's `params` (whose entries are empty exactly
when the payload is empty). -/
theorem C1_fields_always_present (tu : JObj) :
    ((tu_name tu = "Read" ∨ tu_name tu = "Edit" ∨ tu_name tu = "Write") →
      ∃ v, jget (simplify_tool_use tu) "target" = some v ∧
        (jget (tu_input tu) "file_path" = none → v = .str "")) ∧
    (tu_name tu = "Bash" →
      ∃ s, jget (simplify_tool_use tu) "cmd" = some (.str s) ∧
        (jget (tu_input tu) "command" = none → s = "")) ∧
    (tu_name tu = "Grep" →
      ∃ s, jget (simplify_tool_use tu) "pattern" = some (.str s) ∧
        (jget (tu_input tu) "pattern" = none → s = "")) ∧
    (tu_name tu = "Glob" →
      ∃ v, jget (simplify_tool_use tu) "pattern" = some v ∧
        (jget (tu_input tu) "pattern" = none → v = .str "")) ∧
    (tu_name tu = "Task" →
      (∃ v, jget (simplify_tool_use tu) "desc" = some v ∧
        (jget (tu_input tu) "description" = none → v = .str "")) ∧
      (∃ v, jget (simplify_tool_use tu) "agent" = some v ∧
        (jget (tu_input tu) "subagent_type" = none → v = .str ""))) ∧
    (tu_name tu = "TodoWrite" →
      ∃ xs, jget (simplify_tool_use tu) "todos" = some (.arr xs) ∧
        (jget (tu_input tu) "todos" = none → xs = [])) ∧
    (isMcpName (tu_name tu) = true →
      ∃ ps, jget (simplify_tool_use tu) "params" = some (.obj ps) ∧
        (tu_input tu = [] → ps = [])) := by
  have hempty : ∀ n : Nat, (("" : String).take n) = "" := by
    intro n
    apply String.toList_inj.mp
    show (("" : String).take n).data = ("" : String).data
    rw [String.data_take]
    simp
  refine ⟨?_, ?_, ?_, ?_, ?_, ?_, ?_⟩
  · rintro (h | h | h)
    · rw [simplify_tool_use_read tu h]
      exact ⟨jgetD (tu_input tu) "file_path" (.str ""), by simp [jget],
        fun ha => by simp [jgetD, ha]⟩
    · rw [simplify_tool_use_edit tu h]
      exact ⟨jgetD (tu_input tu) "file_path" (.str ""), by simp [jget],
        fun ha => by simp [jgetD, ha]⟩
    · rw [simplify_tool_use_write tu h]
      exact ⟨jgetD (tu_input tu) "file_path" (.str ""), by simp [jget],
        fun ha => by simp [jgetD, ha]⟩
  · intro h
    rw [simplify_tool_use_bash tu h]
    refine ⟨if 200 < (jgetStr (tu_input tu) "command" "").length then
        (jgetStr (tu_input tu) "command" "").take 200 ++ "..."
        else jgetStr (tu_input tu) "command" "", by simp [jget], fun ha => ?_⟩
    have hs : jgetStr (tu_input tu) "command" "" = "" := by simp [jgetStr, ha]
    rw [hs]
    norm_num
  · intro h
    rw [simplify_tool_use_grep tu h]
    refine ⟨(jgetStr (tu_input tu) "pattern" "").take 100, ?_, fun ha => ?_⟩
    · cases hp : jget (tu_input tu) "path" with
      | none => simp [jget]
      | some v => by_cases ht : pyTruthy v <;> simp [ht, jget]
    · have hs : jgetStr (tu_input tu) "pattern" "" = "" := by simp [jgetStr, ha]
      rw [hs, hempty]
  · intro h
    rw [simplify_tool_use_glob tu h]
    exact ⟨jgetD (tu_input tu) "pattern" (.str ""), by simp [jget],
      fun ha => by simp [jgetD, ha]⟩
  · intro h
    rw [simplify_tool_use_task tu h]
    exact ⟨⟨jgetD (tu_input tu) "description" (.str ""), by simp [jget],
        fun ha => by simp [jgetD, ha]⟩,
      ⟨jgetD (tu_input tu) "subagent_type" (.str ""), by simp [jget],
        fun ha => by simp [jgetD, ha]⟩⟩
  · intro h
    rw [simplify_tool_use_todowrite tu h]
    refine ⟨((match jget (tu_input tu) "todos" with
        | some (.arr xs) => xs
        | some _ => []
        | none => []).take 5).map (fun t => .str ((todoText t).take 50)),
      by simp [jget], fun ha => by rw [ha]; rfl⟩
  · intro h
    rw [simplify_tool_use_mcp tu h]
    exact ⟨((tu_input tu).take 3).map (fun p => (p.1, .str ((pyStr p.2).take 100))),
      by simp [jget], fun ha => by rw [ha]; rfl⟩

/-- Witness for C1 at a concrete `TodoWrite` block with no `todos` key. -/
theorem C1_fields_always_present_witness :
    ∃ xs, jget (simplify_tool_use
        [("name", .str "TodoWrite"), ("id", .str "t1"), ("input", .obj [])])
      "todos" = some (.arr xs) ∧
      (jget (tu_input [("name", JVal.str "TodoWrite"), ("id", JVal.str "t1"),
          ("input", JVal.obj [])]) "todos" = none → xs = []) :=
  (C1_fields_always_present
    [("name", .str "TodoWrite"), ("id", .str "t1"), ("input", .obj [])]).2.2.2.2.2.1 rfl

/-- Taking `n` characters yields at most `n` characters. -/
theorem string_length_take (s : String) (n : Nat) :
    (s.take n).length = min n s.length := by
  rw [← String.length_data, String.data_take, List.length_take, String.length_data]

/-- A record whose keys avoid every bounded field is bounded. -/
theorem boundedRecord_of_no_keys (rec : JObj)
    (h : ∀ k, k = "cmd" ∨ k = "pattern" ∨ k = "error" ∨ k = "todos" ∨ k = "params" ∨
      k = "file_path" ∨ k = "query" ∨ k = "url" → jget rec k = none) :
    boundedRecord rec := by
  refine ⟨?_, ?_, ?_, ?_, ?_, ?_⟩
  · intro s hs
    rw [h "cmd" (by simp)] at hs
    cases hs
  · intro _ s hs
    rw [h "pattern" (by simp)] at hs
    cases hs
  · intro s hs
    rw [h "error" (by simp)] at hs
    cases hs
  · intro xs hs
    rw [h "todos" (by simp)] at hs
    cases hs
  · intro ps hs
    rw [h "params" (by simp)] at hs
    cases hs
  · rintro k (rfl | rfl | rfl) v hv <;> rw [h _ (by simp)] at hv <;> cases hv

/-- The Grep record without a `path` field satisfies the bounds. -/
theorem boundedRecord_grep_no_path (idv : JVal) (p : String) :
    boundedRecord (("type", JVal.str "tool_use") ::
      ([("tool", JVal.str "Grep"), ("id", idv), ("pattern", JVal.str (p.take 100))] ++ [])) := by
  refine ⟨?_, ?_, ?_, ?_, ?_, ?_⟩
  · intro s hs
    simp [jget] at hs
  · intro _ s hs
    simp [jget] at hs
    subst hs
    rw [string_length_take]
    omega
  · intro s hs
    simp [jget] at hs
  · intro xs hs
    simp [jget] at hs
  · intro ps hs
    simp [jget] at hs
  · rintro k (rfl | rfl | rfl) v hv <;> simp [jget] at hv

/-- The Grep record with a `path` field satisfies the bounds. -/
theorem boundedRecord_grep_path (idv pv : JVal) (p : String) :
    boundedRecord (("type", JVal.str "tool_use") ::
      ([("tool", JVal.str "Grep"), ("id", idv), ("pattern", JVal.str (p.take 100))] ++
        [("path", pv)])) := by
  refine ⟨?_, ?_, ?_, ?_, ?_, ?_⟩
  · intro s hs
    simp [jget] at hs
  · intro _ s hs
    simp [jget] at hs
    subst hs
    rw [string_length_take]
    omega
  · intro s hs
    simp [jget] at hs
  · intro xs hs
    simp [jget] at hs
  · intro ps hs
    simp [jget] at hs
  · rintro k (rfl | rfl | rfl) v hv <;> simp [jget] at hv

/-- The fallback record, with any probe key set, satisfies the bounds. -/
theorem boundedRecord_fallback_set (nm : String) (idv : JVal) (k : String) (v : String)
    (hk : k = "file_path" ∨ k = "path" ∨ k = "query" ∨ k = "url" ∨ k = "id")
    (hnm : (nm == "Grep") = false) :
    boundedRecord (("type", JVal.str "tool_use") ::
      jset [("tool", JVal.str nm), ("id", idv)] k (JVal.str (v.take 200))) := by
  have hgrep : ∀ rec : JObj, jget rec "tool" = some (JVal.str nm) →
      jIs (jget rec "tool") "Grep" = false := by
    intro rec hr
    rw [hr]
    simpa [jIs] using hnm
  rcases hk with rfl | rfl | rfl | rfl | rfl
  · refine ⟨?_, ?_, ?_, ?_, ?_, ?_⟩
    · intro s hs
      simp [jset, jget] at hs
    · intro ht
      rw [hgrep _ (by simp [jset, jget])] at ht
      cases ht
    · intro s hs
      simp [jset, jget] at hs
    · intro xs hs
      simp [jset, jget] at hs
    · intro ps hs
      simp [jset, jget] at hs
    · rintro q (rfl | rfl | rfl) w hw <;> simp [jset, jget] at hw
      exact ⟨v.take 200, hw.symm, by rw [string_length_take]; omega⟩
  · refine ⟨?_, ?_, ?_, ?_, ?_, ?_⟩
    · intro s hs
      simp [jset, jget] at hs
    · intro ht
      rw [hgrep _ (by simp [jset, jget])] at ht
      cases ht
    · intro s hs
      simp [jset, jget] at hs
    · intro xs hs
      simp [jset, jget] at hs
    · intro ps hs
      simp [jset, jget] at hs
    · rintro q (rfl | rfl | rfl) w hw <;> simp [jset, jget] at hw
  · refine ⟨?_, ?_, ?_, ?_, ?_, ?_⟩
    · intro s hs
      simp [jset, jget] at hs
    · intro ht
      rw [hgrep _ (by simp [jset, jget])] at ht
      cases ht
    · intro s hs
      simp [jset, jget] at hs
    · intro xs hs
      simp [jset, jget] at hs
    · intro ps hs
      simp [jset, jget] at hs
    · rintro q (rfl | rfl | rfl) w hw <;> simp [jset, jget] at hw
      exact ⟨v.take 200, hw.symm, by rw [string_length_take]; omega⟩
  · refine ⟨?_, ?_, ?_, ?_, ?_, ?_⟩
    · intro s hs
      simp [jset, jget] at hs
    · intro ht
      rw [hgrep _ (by simp [jset, jget])] at ht
      cases ht
    · intro s hs
      simp [jset, jget] at hs
    · intro xs hs
      simp [jset, jget] at hs
    · intro ps hs
      simp [jset, jget] at hs
    · rintro q (rfl | rfl | rfl) w hw <;> simp [jset, jget] at hw
      exact ⟨v.take 200, hw.symm, by rw [string_length_take]; omega⟩
  · refine ⟨?_, ?_, ?_, ?_, ?_, ?_⟩
    · intro s hs
      simp [jset, jget] at hs
    · intro ht
      rw [hgrep _ (by simp [jset, jget])] at ht
      cases ht
    · intro s hs
      simp [jset, jget] at hs
    · intro xs hs
      simp [jset, jget] at hs
    · intro ps hs
      simp [jset, jget] at hs
    · rintro q (rfl | rfl | rfl) w hw <;> simp [jset, jget] at hw

/-- Every simplified tool-use record satisfies the truncation bounds. -/
theorem boundedRecord_tool_use (tu : JObj) :
    boundedRecord (("type", JVal.str "tool_use") :: simplify_tool_use tu) := by
  by_cases hR : tu_name tu = "Read"
  · rw [simplify_tool_use_read tu hR]
    apply boundedRecord_of_no_keys
    rintro k (rfl | rfl | rfl | rfl | rfl | rfl | rfl | rfl) <;> rfl
  by_cases hE : tu_name tu = "Edit"
  · rw [simplify_tool_use_edit tu hE]
    apply boundedRecord_of_no_keys
    rintro k (rfl | rfl | rfl | rfl | rfl | rfl | rfl | rfl) <;> rfl
  by_cases hW : tu_name tu = "Write"
  · rw [simplify_tool_use_write tu hW]
    apply boundedRecord_of_no_keys
    rintro k (rfl | rfl | rfl | rfl | rfl | rfl | rfl | rfl) <;> rfl
  by_cases hB : tu_name tu = "Bash"
  · rw [simplify_tool_use_bash tu hB]
    refine ⟨?_, ?_, ?_, ?_, ?_, ?_⟩
    · intro s hs
      simp [jget] at hs
      rw [← hs]
      split
      · rw [String.length_append, string_length_take]
        have h3 : ("..." : String).length = 3 := rfl
        omega
      · omega
    · intro ht
      simp [jIs, jget] at ht
    · intro s hs
      simp [jget] at hs
    · intro xs hs
      simp [jget] at hs
    · intro ps hs
      simp [jget] at hs
    · rintro k (rfl | rfl | rfl) v hv <;> simp [jget] at hv
  by_cases hG : tu_name tu = "Grep"
  · have hrec := simplify_tool_use_grep tu hG
    cases hp : jget (tu_input tu) "path" with
    | none =>
      rw [hp] at hrec
      rw [hrec]
      exact boundedRecord_grep_no_path (tu_id tu) (jgetStr (tu_input tu) "pattern" "")
    | some v =>
      rw [hp] at hrec
      simp only [] at hrec
      by_cases ht : pyTruthy v
      · rw [if_pos ht] at hrec
        rw [hrec]
        exact boundedRecord_grep_path (tu_id tu) v (jgetStr (tu_input tu) "pattern" "")
      · rw [if_neg ht] at hrec
        rw [hrec]
        exact boundedRecord_grep_no_path (tu_id tu) (jgetStr (tu_input tu) "pattern" "")
  by_cases hGl : tu_name tu = "Glob"
  · rw [simplify_tool_use_glob tu hGl]
    refine ⟨?_, ?_, ?_, ?_, ?_, ?_⟩
    · intro s hs
      simp [jget] at hs
    · intro ht
      simp [jIs, jget] at ht
    · intro s hs
      simp [jget] at hs
    · intro xs hs
      simp [jget] at hs
    · intro ps hs
      simp [jget] at hs
    · rintro k (rfl | rfl | rfl) v hv <;> simp [jget] at hv
  by_cases hT : tu_name tu = "Task"
  · rw [simplify_tool_use_task tu hT]
    apply boundedRecord_of_no_keys
    rintro k (rfl | rfl | rfl | rfl | rfl | rfl | rfl | rfl) <;> rfl
  by_cases hTd : tu_name tu = "TodoWrite"
  · rw [simplify_tool_use_todowrite tu hTd]
    refine ⟨?_, ?_, ?_, ?_, ?_, ?_⟩
    · intro s hs
      simp [jget] at hs
    · intro ht
      simp [jIs, jget] at ht
    · intro s hs
      simp [jget] at hs
    · intro xs hs
      simp [jget] at hs
      intro v hv
      rw [← hs] at hv
      have hv2 := List.take_subset 5 _ hv
      rcases List.mem_map.mp hv2 with ⟨t, ht2, hveq⟩
      refine ⟨(todoText t).take 50, hveq.symm, ?_⟩
      rw [string_length_take]
      omega
    · intro ps hs
      simp [jget] at hs
    · rintro k (rfl | rfl | rfl) v hv <;> simp [jget] at hv
  by_cases hM : isMcpName (tu_name tu) = true
  · rw [simplify_tool_use_mcp tu hM]
    refine ⟨?_, ?_, ?_, ?_, ?_, ?_⟩
    · intro s hs
      simp [jget] at hs
    · intro ht
      simp [jIs, jget] at ht
      have := name_ne_of_startsWith hM (s := "Grep") (by decide)
      simp [ht] at this
    · intro s hs
      simp [jget] at hs
    · intro xs hs
      simp [jget] at hs
    · intro ps hs
      simp [jget] at hs
      intro p hp
      rw [← hs] at hp
      have hp2 := List.take_subset 3 _ hp
      rcases List.mem_map.mp hp2 with ⟨q, hq2, hpeq⟩
      refine ⟨(pyStr q.2).take 100, ?_, ?_⟩
      · rw [← hpeq]
      · rw [string_length_take]
        omega
    · rintro k (rfl | rfl | rfl) v hv <;> simp [jget] at hv
  -- fallback
  rw [simplify_tool_use_fallback tu (by simpa using hR) (by simpa using hE)
    (by simpa using hW) (by simpa using hB) (by simpa using hG) (by simpa using hGl)
    (by simpa using hT) (by simpa using hTd) (by simpa using hM)]
  cases hf : ["file_path", "path", "query", "url", "id"].find?
      (fun k => (jget (tu_input tu) k).isSome) with
  | none =>
    refine ⟨?_, ?_, ?_, ?_, ?_, ?_⟩
    · intro s hs
      simp [jget] at hs
    · intro ht s hs
      simp [jget] at hs
    · intro s hs
      simp [jget] at hs
    · intro xs hs
      simp [jget] at hs
    · intro ps hs
      simp [jget] at hs
    · rintro k (rfl | rfl | rfl) v hv <;> simp [jget] at hv
  | some k =>
    have hk : k = "file_path" ∨ k = "path" ∨ k = "query" ∨ k = "url" ∨ k = "id" := by
      have hm := List.mem_of_find?_eq_some hf
      simpa using hm
    exact boundedRecord_fallback_set (tu_name tu) (tu_id tu) k
      (pyStr ((jget (tu_input tu) k).getD JVal.null)) hk (by simpa using hG)

/-- Assistant narration records carry no bounded field. -/
theorem boundedRecord_assistant_text (t : String) :
    boundedRecord [("type", JVal.str "assistant"), ("text", JVal.str t)] :=
  boundedRecord_of_no_keys _
    (by rintro k (rfl | rfl | rfl | rfl | rfl | rfl | rfl | rfl) <;> rfl)

/-- User text records carry no bounded field. -/
theorem boundedRecord_user_text (t : String) :
    boundedRecord [("type", JVal.str "user"), ("text", JVal.str t)] :=
  boundedRecord_of_no_keys _
    (by rintro k (rfl | rfl | rfl | rfl | rfl | rfl | rfl | rfl) <;> rfl)

/-- Every reduced tool-result record satisfies the truncation bounds. -/
theorem boundedRecord_result (tr : JObj) (reg : Registry) :
    boundedRecord (("type", JVal.str "result") :: process_tool_result tr reg) := by
  rw [process_tool_result_eq]
  have hcases : errorField tr = [] ∨
      ∃ s : String, errorField tr = [("error", JVal.str (s.take 200))] := by
    unfold errorField
    by_cases he : tr_is_error tr
    · simp only [he, if_true]
      cases tr_content tr with
      | str s => exact Or.inr ⟨s, rfl⟩
      | arr xs =>
        cases xs with
        | nil => exact Or.inl rfl
        | cons first rest =>
          cases first with
          | obj o => exact Or.inr ⟨jgetStr o "text" "", rfl⟩
          | str s => exact Or.inr ⟨s, rfl⟩
          | num n => exact Or.inl rfl
          | bool b => exact Or.inl rfl
          | null => exact Or.inl rfl
          | arr ys => exact Or.inl rfl
      | num n => exact Or.inl rfl
      | bool b => exact Or.inl rfl
      | null => exact Or.inl rfl
      | obj o => exact Or.inl rfl
    · simp [he]
  rcases hcases with hE | ⟨s0, hE⟩ <;> rw [hE]
  · apply boundedRecord_of_no_keys
    rintro k (rfl | rfl | rfl | rfl | rfl | rfl | rfl | rfl) <;> rfl
  · refine ⟨?_, ?_, ?_, ?_, ?_, ?_⟩
    · intro s hs
      simp [jget] at hs
    · intro ht
      simp [jIs, jget] at ht
    · intro s hs
      simp [jget] at hs
      subst hs
      rw [string_length_take]
      omega
    · intro xs hs
      simp [jget] at hs
    · intro ps hs
      simp [jget] at hs
    · rintro k (rfl | rfl | rfl) v hv <;> simp [jget] at hv

/-- Every record an assistant content block emits satisfies the bounds. -/
theorem boundedRecord_assistantRecord (item : JVal) (rec : JObj)
    (h : assistantRecord item = some rec) : boundedRecord rec := by
  cases item with
  | obj o =>
    simp only [assistantRecord] at h
    split at h
    · split at h
      · cases h
      · injection h with h2
        subst h2
        exact boundedRecord_assistant_text _
    · split at h
      · injection h with h2
        subst h2
        exact boundedRecord_tool_use o
      · cases h
  | str s => simp [assistantRecord] at h
  | num n => simp [assistantRecord] at h
  | bool b => simp [assistantRecord] at h
  | null => simp [assistantRecord] at h
  | arr xs => simp [assistantRecord] at h

/-- Every record a user content block emits as a result satisfies the
bounds. -/
theorem boundedRecord_resultRecord (reg : Registry) (item : JVal) (rec : JObj)
    (h : resultRecord reg item = some rec) : boundedRecord rec := by
  cases item with
  | obj o =>
    simp only [resultRecord] at h
    split at h
    · injection h with h2
      subst h2
      exact boundedRecord_result o reg
    · cases h
  | str s => simp [resultRecord] at h
  | num n => simp [resultRecord] at h
  | bool b => simp [resultRecord] at h
  | null => simp [resultRecord] at h
  | arr xs => simp [resultRecord] at h

/-- Every record one input line emits satisfies the bounds. -/
theorem boundedRecord_lineOutputs (reg : Registry) (l : Line) :
    ∀ rec ∈ lineOutputs reg l, boundedRecord rec := by
  intro rec hrec
  unfold lineOutputs at hrec
  cases hp : l.parsed with
  | none =>
    rw [hp] at hrec
    cases hrec
  | some record =>
    rw [hp] at hrec
    by_cases h1 : (jIs (jget record "type") "file-history-snapshot" ||
        jIs (jget record "type") "queue-operation") = true
    · simp [h1] at hrec
    · by_cases h2 : jIs (jget record "type") "assistant" = true
      · simp only [h1, h2, if_true, if_false, Bool.false_eq_true] at hrec
        rw [process_assistant_message_eq] at hrec
        rcases List.mem_filterMap.mp hrec with ⟨item, _, hi⟩
        exact boundedRecord_assistantRecord item rec hi
      · by_cases h3 : jIs (jget record "type") "user" = true
        · simp only [h1, h2, h3, if_true, if_false, Bool.false_eq_true] at hrec
          rw [process_user_message_eq] at hrec
          rcases List.mem_append.mp hrec with hu | hr
          · cases he : extract_user_text (contentItems record) with
            | none =>
              rw [he] at hu
              cases hu
            | some t =>
              rw [he] at hu
              rcases List.mem_singleton.mp hu with rfl
              exact boundedRecord_user_text t
          · rcases List.mem_filterMap.mp hr with ⟨item, _, hi⟩
            exact boundedRecord_resultRecord reg item rec hi
        · simp [h1, h2, h3] at hrec

/-- Counterexample to claim C7 as stated: a 250-character Bash command is
emitted as a `cmd` of 203 characters, exceeding the claim's 200-character
bound for `cmd`, and a 150-character Glob pattern is emitted whole,
exceeding the claim's 100-character bound for patterns. -/
theorem C7_counterexample :
    (∃ s, jget (simplify_tool_use
        [("name", .str "Bash"), ("id", .str "t1"),
          ("input", .obj [("command", .str (List.asString (List.replicate 250 'a')))])])
      "cmd" = some (.str s) ∧ 200 < s.length) ∧
    (∃ s, jget (simplify_tool_use
        [("name", .str "Glob"), ("id", .str "t2"),
          ("input", .obj [("pattern", .str (List.asString (List.replicate 150 'b')))])])
      "pattern" = some (.str s) ∧ 100 < s.length) := by
  constructor
  · refine ⟨(List.asString (List.replicate 250 'a')).take 200 ++ "...", ?_, ?_⟩
    · rw [simplify_tool_use_bash
        [("name", .str "Bash"), ("id", .str "t1"),
          ("input", .obj [("command", .str (List.asString (List.replicate 250 'a')))])] rfl]
      have hlen : (200 : Nat) <
          (jgetStr (tu_input [("name", JVal.str "Bash"), ("id", JVal.str "t1"),
            ("input", JVal.obj [("command",
              JVal.str (List.asString (List.replicate 250 'a')))])]) "command" "").length := by
        show (200 : Nat) < (List.asString (List.replicate 250 'a')).length
        rw [List.length_asString, List.length_replicate]
        omega
      rw [if_pos hlen]
      rfl
    · rw [String.length_append, string_length_take, List.length_asString,
        List.length_replicate]
      have h3 : ("..." : String).length = 3 := rfl
      omega
  · refine ⟨List.asString (List.replicate 150 'b'), ?_, ?_⟩
    · rw [simplify_tool_use_glob
        [("name", .str "Glob"), ("id", .str "t2"),
          ("input", .obj [("pattern", .str (List.asString (List.replicate 150 'b')))])] rfl]
      rfl
    · rw [List.length_asString, List.length_replicate]
      omega

/-- Claim C7 (amended): in every pass, every emitted record observes the
truncation bounds the code actually enforces — `cmd` at most 203
characters (200 plus the ellipsis), Grep patterns at most 100 (Glob
patterns are not truncated), `error` values at most 200, TodoWrite item
texts at most 50, mcp `params` values at most 100, and emitted fallback
probe values at most 200; and for every fallback tool use, whichever
probe key the fallback rule selects (`file_path`, `path`, `query`,
`url`, or `id`), the value it writes for that key is a string of at
most 200 characters. -/
theorem C7_truncation_bounds (lines : List Line) :
    (∀ rec ∈ (streamline lines).records, boundedRecord rec) ∧
    (∀ tu : JObj,
      (tu_name tu == "Read") = false → (tu_name tu == "Edit") = false →
      (tu_name tu == "Write") = false → (tu_name tu == "Bash") = false →
      (tu_name tu == "Grep") = false → (tu_name tu == "Glob") = false →
      (tu_name tu == "Task") = false → (tu_name tu == "TodoWrite") = false →
      isMcpName (tu_name tu) = false →
      ∀ k, ["file_path", "path", "query", "url", "id"].find?
          (fun q => (jget (tu_input tu) q).isSome) = some k →
      ∃ s : String, jget (simplify_tool_use tu) k = some (.str s) ∧
        s.length ≤ 200) := by
  constructor
  · suffices h : ∀ st : PassState, (∀ rec ∈ st.records, boundedRecord rec) →
        ∀ rec ∈ (lines.foldl streamlineLine st).records, boundedRecord rec from
      h PassState.init (by intro rec hrec; cases hrec)
    induction lines with
    | nil => intro st h; exact h
    | cons l ls ih =>
      intro st h
      rw [List.foldl_cons]
      apply ih
      intro rec hrec
      rw [streamlineLine_eq] at hrec
      rcases List.mem_append.mp hrec with h1 | h2
      · exact h rec h1
      · exact boundedRecord_lineOutputs st.tool_uses l rec h2
  · intro tu h1 h2 h3 h4 h5 h6 h7 h8 h9 k hf
    rw [simplify_tool_use_fallback tu h1 h2 h3 h4 h5 h6 h7 h8 h9, hf]
    refine ⟨(pyStr ((jget (tu_input tu) k).getD JVal.null)).take 200, ?_,
      by rw [string_length_take]; omega⟩
    have hk : k = "file_path" ∨ k = "path" ∨ k = "query" ∨ k = "url" ∨ k = "id" := by
      have hm := List.mem_of_find?_eq_some hf
      simpa using hm
    rcases hk with rfl | rfl | rfl | rfl | rfl <;> simp [jset, jget]

/-- Witness for C7: a pass over one assistant `Read` invocation emits a
record that the bounds theorem accepts, and the fallback conjunct holds
at a concrete unknown tool whose probe finds a `path` value. -/
theorem C7_truncation_bounds_witness :
    boundedRecord [("type", JVal.str "tool_use"), ("tool", JVal.str "Read"),
      ("id", JVal.str "t"), ("target", JVal.str "/tmp/f")] ∧
    (∃ s : String, jget (simplify_tool_use
        [("name", .str "Zap"), ("id", .str "t3"), ("input", .obj [("path", .str "/p")])])
      "path" = some (.str s) ∧ s.length ≤ 200) :=
  ⟨(C7_truncation_bounds
      [⟨"x", some [("type", .str "assistant"), ("message", .obj [("content",
        .arr [.obj [("type", .str "tool_use"), ("id", .str "t"),
          ("name", .str "Read"), ("input", .obj [("file_path", .str "/tmp/f")])]])])]⟩]).1
    [("type", JVal.str "tool_use"), ("tool", JVal.str "Read"),
      ("id", JVal.str "t"), ("target", JVal.str "/tmp/f")]
    (by
      have hrec : (streamline [⟨"x", some [("type", JVal.str "assistant"),
          ("message", JVal.obj [("content",
            JVal.arr [JVal.obj [("type", JVal.str "tool_use"), ("id", JVal.str "t"),
              ("name", JVal.str "Read"),
              ("input", JVal.obj [("file_path", JVal.str "/tmp/f")])]])])]⟩]).records
          = [[("type", JVal.str "tool_use"), ("tool", JVal.str "Read"),
              ("id", JVal.str "t"), ("target", JVal.str "/tmp/f")]] := rfl
      rw [hrec]
      exact List.mem_singleton.mpr rfl),
    (C7_truncation_bounds []).2
      [("name", .str "Zap"), ("id", .str "t3"), ("input", .obj [("path", .str "/p")])]
      rfl rfl rfl rfl rfl rfl rfl rfl rfl "path" rfl⟩

end Streamline
